import Mathlib

/-!
Shallow embedding of the tie-detection and rolloff-resolution engine of the
Rollies module (src/scripts/rolloff-manager.mjs, together with the richer
draft of the same manager in src/unnamed/part_007), and proofs of the
specification claims about it.

Modelling conventions.

* Ranks (Foundry initiative values) are modelled as rationals; die totals as
  naturals.
* The externally persisted per-combatant rank record, the locally evaluated
  random rolls and the remote query channel are modelled by an explicit
  World state threaded through the engine: local rolls are read off a stream
  (one value per evaluated Roll, in evaluation order), remote replies off a
  stream of optional totals (none models a timeout, a disconnect or any
  other query failure), and every external rank write and every remote
  solicitation is logged in order.
* The unbounded recursions of the source (re-rolling a contest that tied
  again, and the while loop over bracket rounds) are modelled with an
  explicit fuel argument; running out of fuel returns none and is the
  model of a run that has not terminated yet.
* Presentation-only effects (chat messages, dialogs, broadcasts of
  intermediate results to observers) touch no engine state and are not
  modelled.
-/

namespace Rollies

/-- Actor data reachable from a combatant: the actor's type string, the
optional dexterity ability value (actor.system?.abilities?.dex?.value) and
the ids of the users holding OWNER permission on the actor
(actor.testUserPermission(user, OWNER)). -/
structure Actor where
  type : String
  dexValue : Option Int
  ownerIds : List String
deriving DecidableEq

/-- A combat participant: stable id, display name, nullable initiative rank
as read at detection time, and the optional actor. -/
structure Combatant where
  id : String
  name : String
  initiative : Option ℚ
  actor : Option Actor
deriving DecidableEq

/-- A connected client of the session. -/
structure User where
  id : String
  active : Bool
  isGM : Bool
deriving DecidableEq

/-- A combat encounter: id, started flag and its combatants. -/
structure Combat where
  id : String
  started : Bool
  combatants : List Combatant
deriving DecidableEq

/-- Relevance predicate used by getRelevantCombatants: with the includeNPCs
setting on, every combatant is relevant; otherwise only combatants whose
actor type is character (combatant.actor?.type === 'character', which is
false when the actor is missing). -/
def includeCombatant (includeNPCs : Bool) (c : Combatant) : Bool :=
  if includeNPCs then true
  else match c.actor with
    | some a => a.type == "character"
    | none => false

/-- getRelevantCombatants from rolloff-manager.mjs. -/
def getRelevantCombatants (includeNPCs : Bool) (combat : Combat) : List Combatant :=
  combat.combatants.filter (includeCombatant includeNPCs)

/-- The distinct initiative values of a combatant list in first-occurrence
order; the source groups combatants into an object keyed by the initiative
value, one key per distinct value. -/
def initiativeKeys : List Combatant → List (Option ℚ)
  | [] => []
  | c :: cs => c.initiative :: (initiativeKeys cs).filter (fun k => decide (k ≠ c.initiative))

/-- The combatants of a list sharing one initiative key, in input order;
this is the bucket the source builds for that key. -/
def groupFor (cs : List Combatant) (k : Option ℚ) : List Combatant :=
  cs.filter (fun c => decide (c.initiative = k))

/-- findTieGroups from rolloff-manager.mjs: bucket the combatants by exact
initiative value and keep the buckets of size at least 2. -/
def findTieGroups (cs : List Combatant) : List (List Combatant) :=
  ((initiativeKeys cs).map (groupFor cs)).filter (fun g => decide (2 ≤ g.length))

theorem mem_groupFor {cs : List Combatant} {k : Option ℚ} {c : Combatant} :
    c ∈ groupFor cs k ↔ c ∈ cs ∧ c.initiative = k := by
  simp [groupFor, List.mem_filter]

theorem mem_initiativeKeys {cs : List Combatant} {k : Option ℚ} :
    k ∈ initiativeKeys cs ↔ ∃ c ∈ cs, c.initiative = k := by
  induction cs with
  | nil => simp [initiativeKeys]
  | cons c cs ih =>
    simp only [initiativeKeys, List.mem_cons, List.mem_filter, ih, decide_eq_true_eq]
    constructor
    · rintro (rfl | ⟨⟨c', hc', rfl⟩, _⟩)
      · exact ⟨c, Or.inl rfl, rfl⟩
      · exact ⟨c', Or.inr hc', rfl⟩
    · rintro ⟨c', hc' | hc', rfl⟩
      · exact Or.inl (by rw [hc'])
      · by_cases h : c'.initiative = c.initiative
        · exact Or.inl h
        · exact Or.inr ⟨⟨c', hc', rfl⟩, h⟩

theorem mem_findTieGroups {cs : List Combatant} {g : List Combatant} :
    g ∈ findTieGroups cs ↔
      (∃ k, k ∈ initiativeKeys cs ∧ g = groupFor cs k) ∧ 2 ≤ g.length := by
  simp only [findTieGroups, List.mem_filter, List.mem_map, decide_eq_true_eq]
  constructor
  · rintro ⟨⟨k, hk, rfl⟩, h2⟩
    exact ⟨⟨k, hk, rfl⟩, h2⟩
  · rintro ⟨⟨k, hk, rfl⟩, h2⟩
    exact ⟨⟨k, hk, rfl⟩, h2⟩

/-- C6: over a set of combatants all of whose ranks are non-null,
findTieGroups returns only groups of size at least 2, every returned group
is exactly the set of entities sharing one rational rank value, a rank
value's group is returned precisely when at least 2 entities share it, and
distinct returned groups are disjoint. -/
theorem findTieGroups_spec (cs : List Combatant)
    (h : ∀ c ∈ cs, c.initiative ≠ none) :
    (∀ g ∈ findTieGroups cs, 2 ≤ g.length) ∧
    (∀ g ∈ findTieGroups cs, ∃ r : ℚ, g = groupFor cs (some r)) ∧
    (∀ r : ℚ, groupFor cs (some r) ∈ findTieGroups cs ↔
        2 ≤ (groupFor cs (some r)).length) ∧
    (∀ g₁ ∈ findTieGroups cs, ∀ g₂ ∈ findTieGroups cs,
        g₁ ≠ g₂ → ∀ c ∈ g₁, c ∉ g₂) := by
  refine ⟨?_, ?_, ?_, ?_⟩
  · intro g hg
    exact (mem_findTieGroups.mp hg).2
  · intro g hg
    obtain ⟨⟨k, hk, rfl⟩, _⟩ := mem_findTieGroups.mp hg
    obtain ⟨c, hc, hck⟩ := mem_initiativeKeys.mp hk
    cases k with
    | none => exact absurd hck (h c hc)
    | some r => exact ⟨r, rfl⟩
  · intro r
    constructor
    · intro hg
      exact (mem_findTieGroups.mp hg).2
    · intro h2
      refine mem_findTieGroups.mpr ⟨⟨some r, ?_, rfl⟩, h2⟩
      have hne : groupFor cs (some r) ≠ [] := by
        intro hnil
        rw [hnil] at h2
        simp at h2
      obtain ⟨c, hc⟩ := List.exists_mem_of_ne_nil _ hne
      obtain ⟨hcs, hcr⟩ := mem_groupFor.mp hc
      exact mem_initiativeKeys.mpr ⟨c, hcs, hcr⟩
  · intro g₁ hg₁ g₂ hg₂ hne c hc₁ hc₂
    obtain ⟨⟨k₁, _, rfl⟩, _⟩ := mem_findTieGroups.mp hg₁
    obtain ⟨⟨k₂, _, rfl⟩, _⟩ := mem_findTieGroups.mp hg₂
    have e₁ := (mem_groupFor.mp hc₁).2
    have e₂ := (mem_groupFor.mp hc₂).2
    exact hne (congrArg (groupFor cs) (e₁.symm.trans e₂))

/-- C6 witness: the spec's example shape, ranks 5,5,7,7,7,9: the hypothesis
holds and the theorem applies. -/
theorem findTieGroups_spec_witness :
    (∀ c ∈ [Combatant.mk "a" "A" (some 5) none, Combatant.mk "b" "B" (some 5) none,
            Combatant.mk "c" "C" (some 7) none, Combatant.mk "d" "D" (some 7) none,
            Combatant.mk "e" "E" (some 7) none, Combatant.mk "f" "F" (some 9) none],
        c.initiative ≠ none) ∧
    (∀ g ∈ findTieGroups [Combatant.mk "a" "A" (some 5) none, Combatant.mk "b" "B" (some 5) none,
            Combatant.mk "c" "C" (some 7) none, Combatant.mk "d" "D" (some 7) none,
            Combatant.mk "e" "E" (some 7) none, Combatant.mk "f" "F" (some 9) none],
        2 ≤ g.length) :=
  ⟨by decide,
   (findTieGroups_spec _ (by decide)).1⟩

/-! Detection triggers (_onCombatantUpdate, _onCombatantCreate) and the
collection-level check-then-set (_checkForInitiativeTies). A hook handler
either schedules a delayed detection pass (some delayMs) or does nothing
(none). In _onCombatantUpdate the source guard is the JS truthiness test
(!update.initiative), so the null, undefined and 0 values all skip the
handler. combat?.started for a missing combat is undefined, hence falsy;
the started flag passed here is that coerced boolean. -/

/-- JS truthiness of the update.initiative value: null/undefined (none) and
0 are falsy, every other number is truthy. -/
def truthyInitiative : Option ℚ → Bool
  | none => false
  | some q => decide (q ≠ 0)

/-- The _onCombatantUpdate hook handler: returns the settle delay of the
scheduled detection pass, or none when no pass is scheduled. -/
def onCombatantUpdate (combatStarted : Bool) (updateInitiative : Option ℚ) : Option Nat :=
  if !truthyInitiative updateInitiative then none
  else if combatStarted then none
  else some 200

/-- The _onCombatantCreate hook handler. -/
def onCombatantCreate (combatStarted : Bool) : Option Nat :=
  if combatStarted then none
  else some 300

/-- C8: evaluation of the trigger handlers. Setting a nonzero rank or adding
a combatant while the combat has not started schedules a settle-delayed
detection pass (200ms / 300ms), and neither does once the combat has
started; but setting the rank to 0 — a legitimate initiative value — is
swallowed by the falsy !update.initiative guard and schedules nothing,
contradicting the claim that detection is re-run for any rank value. -/
theorem onCombatantUpdate_zero_skips_detection :
    onCombatantUpdate false (some 0) = none ∧
    onCombatantUpdate false (some 5) = some 200 ∧
    onCombatantUpdate false (some (-3)) = some 200 ∧
    onCombatantUpdate false none = none ∧
    onCombatantCreate false = some 300 ∧
    onCombatantUpdate true (some 5) = none ∧
    onCombatantCreate true = none := by
  decide

/-- The collection-level dedup state: the processed-combats set and, as the
observable effect, the ordered log of combat ids for which
_handleInitiativeTies was invoked (a resolution was launched). -/
structure DetectState where
  processed : List String
  handled : List String
deriving DecidableEq

/-- The _checkForInitiativeTies pass from rolloff-manager.mjs, run as one
atomic step (the source function is synchronous from the started/processed
checks through processedCombats.add and the _handleInitiativeTies call, so
the JS run-to-completion model makes check-then-set atomic). -/
def checkForInitiativeTies (includeNPCs : Bool) (st : DetectState) (combat : Combat) :
    DetectState :=
  if combat.started then st
  else if combat.id ∈ st.processed then st
  else
    let relevantCombatants := getRelevantCombatants includeNPCs combat
    let rolledCombatants := relevantCombatants.filter (fun c => c.initiative.isSome)
    if rolledCombatants.length ≠ relevantCombatants.length then st
    else if rolledCombatants.length = 0 then st
    else if (findTieGroups rolledCombatants).length = 0 then st
    else { processed := st.processed ++ [combat.id], handled := st.handled ++ [combat.id] }

/-- A sequence of detection passes, processed one at a time. -/
def runChecks (includeNPCs : Bool) (st : DetectState) (evs : List Combat) : DetectState :=
  evs.foldl (checkForInitiativeTies includeNPCs) st

theorem checkForInitiativeTies_cases (includeNPCs : Bool) (st : DetectState) (c : Combat) :
    checkForInitiativeTies includeNPCs st c = st ∨
      (c.started = false ∧ c.id ∉ st.processed ∧
        checkForInitiativeTies includeNPCs st c =
          { processed := st.processed ++ [c.id], handled := st.handled ++ [c.id] }) := by
  unfold checkForInitiativeTies
  by_cases h1 : c.started
  · simp [h1]
  · by_cases h2 : c.id ∈ st.processed
    · simp [h1, h2]
    · rw [if_neg h1, if_neg h2]
      dsimp only
      split
      · exact Or.inl rfl
      · split
        · exact Or.inl rfl
        · split
          · exact Or.inl rfl
          · exact Or.inr ⟨by simpa using h1, h2, rfl⟩

/-- Invariant tying the handled log to the processed set: the given combat
id was handled at most once, and if it was handled it sits in the
processed set. -/
def DetectInv (cid : String) (st : DetectState) : Prop :=
  st.handled.count cid ≤ 1 ∧ (1 ≤ st.handled.count cid → cid ∈ st.processed)

theorem detectInv_step (includeNPCs : Bool) (cid : String) (st : DetectState) (c : Combat)
    (h : DetectInv cid st) : DetectInv cid (checkForInitiativeTies includeNPCs st c) := by
  rcases checkForInitiativeTies_cases includeNPCs st c with hsame | ⟨_, hnp, heq⟩
  · rwa [hsame]
  · rw [heq]
    by_cases hid : cid = c.id
    · subst hid
      have hzero : st.handled.count c.id = 0 := by
        by_contra hnz
        exact hnp (h.2 (Nat.one_le_iff_ne_zero.mpr hnz))
      constructor
      · simp [List.count_append, hzero]
      · intro _
        simp
    · constructor
      · simpa [List.count_append, List.count_singleton, hid] using h.1
      · intro hcnt
        have : 1 ≤ st.handled.count cid := by
          simpa [List.count_append, List.count_singleton, hid] using hcnt
        exact List.mem_append_left _ (h.2 this)

theorem detectInv_run (includeNPCs : Bool) (cid : String) (st : DetectState)
    (evs : List Combat) (h : DetectInv cid st) :
    DetectInv cid (runChecks includeNPCs st evs) := by
  induction evs generalizing st with
  | nil => exact h
  | cons e evs ih => exact ih _ (detectInv_step includeNPCs cid st e h)

theorem checkForInitiativeTies_idem (includeNPCs : Bool) (st : DetectState) (c : Combat) :
    checkForInitiativeTies includeNPCs (checkForInitiativeTies includeNPCs st c) c =
      checkForInitiativeTies includeNPCs st c := by
  rcases checkForInitiativeTies_cases includeNPCs st c with hsame | ⟨hns, _, heq⟩
  · rw [hsame, hsame]
  · rw [heq]
    unfold checkForInitiativeTies
    simp [hns]

/-- C7: the collection-level check-then-set makes resolution launch at most
once per combat lifetime. From a state where the combat was never handled:
(a) any sequence of detection passes handles it at most once; (b) a second
identical pass right after a first one is a no-op; (c) two near-simultaneous
passes that both see the same ties launch exactly one resolution. -/
theorem detection_launches_at_most_once (includeNPCs : Bool) (st0 : DetectState) (c : Combat)
    (h0 : st0.handled.count c.id = 0)
    (hfire : checkForInitiativeTies includeNPCs st0 c ≠ st0) :
    (∀ evs : List Combat, (runChecks includeNPCs st0 evs).handled.count c.id ≤ 1) ∧
    (runChecks includeNPCs st0 [c, c] = checkForInitiativeTies includeNPCs st0 c) ∧
    (runChecks includeNPCs st0 [c, c]).handled.count c.id = 1 := by
  have hinv : DetectInv c.id st0 := by
    constructor
    · omega
    · intro h1
      omega
  have hstep : checkForInitiativeTies includeNPCs st0 c =
      { processed := st0.processed ++ [c.id], handled := st0.handled ++ [c.id] } := by
    rcases checkForInitiativeTies_cases includeNPCs st0 c with hsame | ⟨_, _, heq⟩
    · exact absurd hsame hfire
    · exact heq
  refine ⟨?_, ?_, ?_⟩
  · intro evs
    exact (detectInv_run includeNPCs c.id st0 evs hinv).1
  · show checkForInitiativeTies includeNPCs (checkForInitiativeTies includeNPCs st0 c) c = _
    exact checkForInitiativeTies_idem includeNPCs st0 c
  · show (checkForInitiativeTies includeNPCs (checkForInitiativeTies includeNPCs st0 c) c).handled.count c.id = 1
    rw [checkForInitiativeTies_idem, hstep]
    simp [List.count_append, h0]

/-- C7 witness: a fresh state and a not-yet-started combat with two
combatants tied at rank 10 fire the detection pass, and the theorem applies:
the double trigger handles the combat exactly once. -/
theorem detection_launches_at_most_once_witness :
    (runChecks true ⟨[], []⟩
        [Combat.mk "cmb" false
            [Combatant.mk "a" "A" (some 10) none, Combatant.mk "b" "B" (some 10) none],
         Combat.mk "cmb" false
            [Combatant.mk "a" "A" (some 10) none, Combatant.mk "b" "B" (some 10) none]]).handled.count
        "cmb" = 1 :=
  (detection_launches_at_most_once true ⟨[], []⟩
      (Combat.mk "cmb" false
        [Combatant.mk "a" "A" (some 10) none, Combatant.mk "b" "B" (some 10) none])
      (by decide) (by decide)).2.2

/-! The rolloff engine. The external world visible to the engine is the
persisted rank record (read and written through the live combatant
documents), the local dice and the remote query channel; World carries all
of them plus the observation logs the claims are about. -/

/-- One collected contest result: the combatant and its accepted total. -/
structure RollResult where
  combatant : Combatant
  total : Nat
deriving DecidableEq

/-- The engine-visible external state: the persisted rank of each combatant
id, the cursor into the local draw stream, the cursor into the remote reply
stream, the ordered log of external rank writes and the ordered log of
remote solicitations (combatant ids a query was sent for). -/
structure World where
  ranks : List (String × ℚ)
  kL : Nat
  kR : Nat
  writes : List (String × ℚ)
  solicited : List String
deriving DecidableEq

/-- First-match lookup in the rank record. -/
def lookupRank : List (String × ℚ) → String → Option ℚ
  | [], _ => none
  | p :: rest, cid => if p.1 = cid then some p.2 else lookupRank rest cid

/-- Read a combatant's live persisted rank (combatant.initiative on the live
document). -/
def getRank (w : World) (cid : String) : Option ℚ :=
  lookupRank w.ranks cid

/-- Update one combatant's persisted rank in the record. -/
def setRank (ranks : List (String × ℚ)) (cid : String) (v : ℚ) : List (String × ℚ) :=
  ranks.map (fun p => if p.1 = cid then (cid, v) else p)

/-- An external rank write (combatant.update with a new initiative): updates
the live record and is logged. -/
def writeRank (w : World) (cid : String) (v : ℚ) : World :=
  { w with ranks := setRank w.ranks cid v, writes := w.writes ++ [(cid, v)] }

/-- A locally evaluated Roll: consumes the next value of the local draw
stream. -/
def localRoll (ds : Nat → Nat) (w : World) : Nat × World :=
  (ds w.kL, { w with kL := w.kL + 1 })

/-- A remote owner.query solicitation: consumes the next remote reply (none
models a timeout, disconnect or any other failure) and is logged. -/
def remoteQuery (remote : Nat → Option Nat) (w : World) (cid : String) : Option Nat × World :=
  (remote w.kR, { w with kR := w.kR + 1, solicited := w.solicited ++ [cid] })

/-- _getOwnerUser from rolloff-manager.mjs: the first user that is active,
not a GM and holds OWNER permission on the combatant's actor; none when the
combatant has no actor or no such user exists. -/
def getOwnerUser (users : List User) (c : Combatant) : Option User :=
  match c.actor with
  | none => none
  | some a => users.find? (fun u => u.active && !u.isGM && decide (u.id ∈ a.ownerIds))

/-- The per-combatant acquisition step shared by the pair rolloff and the
bracket matches: with no owner, roll locally at once (no solicitation); with
an owner, query it and accept its total on success, else fall back to a
local roll. Exactly one result is produced in every case. -/
def getRoll (users : List User) (ds : Nat → Nat) (remote : Nat → Option Nat)
    (c : Combatant) (w : World) : RollResult × World :=
  match getOwnerUser users c with
  | none =>
    let p := localRoll ds w
    (⟨c, p.1⟩, p.2)
  | some _ =>
    let q := remoteQuery remote w c.id
    match q.1 with
    | some t => (⟨c, t⟩, q.2)
    | none =>
      let p := localRoll ds q.2
      (⟨c, p.1⟩, p.2)

/-- Collect one result per combatant (the Promise.all over the per-combatant
tasks; the model serialises the draws in list order, which fixes one
interleaving of the concurrent acquisitions). -/
def rollGroup (users : List User) (ds : Nat → Nat) (remote : Nat → Option Nat) :
    List Combatant → World → List RollResult × World
  | [], w => ([], w)
  | c :: cs, w =>
    let p := getRoll users ds remote c w
    let q := rollGroup users ds remote cs p.2
    (p.1 :: q.1, q.2)

/-- Math.max over the collected totals (0 for the empty list; every use site
passes a nonempty list). -/
def maxTotal (rs : List RollResult) : Nat :=
  (rs.map (fun r => r.total)).foldr max 0

/-- The results attaining the maximum total, in collection order
(results.filter of the source). -/
def winnersOf (rs : List RollResult) : List RollResult :=
  rs.filter (fun r => decide (r.total = maxTotal rs))

/-- _applyRolloffWinner: write the winner's live rank plus 0.01 back to the
external record (winner.update({initiative: winner.initiative + 0.01}); a
null rank coerces to 0 in the JS addition). The winner chat message and the
showWinner broadcasts are presentation-only. -/
def applyRolloffWinner (w : World) (c : Combatant) : World :=
  writeRank w c.id ((getRank w c.id).getD 0 + 1 / 100)

/-- _conductPairRolloff followed by _resolveRolloff: collect one result per
entrant, then either declare the unique maximum holder the winner and apply
it, or recurse on exactly the tied entrants (the `-explode` sub-contest).
The fuel bounds the recursion depth; none models a run that has not
terminated within it. An empty winner list (impossible for a nonempty
entrant list) models the source crashing on winners[0]. -/
def conductPairRolloff (users : List User) (ds : Nat → Nat) (remote : Nat → Option Nat) :
    Nat → List Combatant → World → Option Combatant × World
  | 0, _, w => (none, w)
  | fuel + 1, cs, w =>
    let p := rollGroup users ds remote cs w
    let ws := winnersOf p.1
    if 2 ≤ ws.length then
      conductPairRolloff users ds remote fuel (ws.map (fun r => r.combatant)) p.2
    else
      match ws with
      | [] => (none, p.2)
      | r :: _ => (some r.combatant, applyRolloffWinner p.2 r.combatant)

/-- _resolveRolloff alone, over already-collected results. -/
def resolveRolloff (users : List User) (ds : Nat → Nat) (remote : Nat → Option Nat)
    (fuel : Nat) (results : List RollResult) (w : World) : Option Combatant × World :=
  let ws := winnersOf results
  if 2 ≤ ws.length then
    conductPairRolloff users ds remote fuel (ws.map (fun r => r.combatant)) w
  else
    match ws with
    | [] => (none, w)
    | r :: _ => (some r.combatant, applyRolloffWinner w r.combatant)

/-- The users holding OWNER permission on a combatant's actor ([] when the
combatant has no actor). -/
def actorOwnerIds (c : Combatant) : List String :=
  match c.actor with
  | none => []
  | some a => a.ownerIds

/-- C10: a combatant has a remote owner only when its actor exists and some
user is simultaneously active, not a GM and holds OWNER permission on that
actor; when every permission holder is a GM or inactive the lookup is none;
and with a none owner the acquisition step rolls locally at once, consuming
no remote query and logging no solicitation. -/
theorem getOwnerUser_spec (users : List User) (ds : Nat → Nat) (remote : Nat → Option Nat)
    (c : Combatant) (w : World) :
    (∀ u, getOwnerUser users c = some u →
      u ∈ users ∧ c.actor.isSome ∧ u.active = true ∧ u.isGM = false ∧
        u.id ∈ actorOwnerIds c) ∧
    ((∀ u ∈ users, u.id ∈ actorOwnerIds c → u.active = false ∨ u.isGM = true) →
      getOwnerUser users c = none) ∧
    (getOwnerUser users c = none →
      getRoll users ds remote c w = (⟨c, ds w.kL⟩, { w with kL := w.kL + 1 })) := by
  refine ⟨?_, ?_, ?_⟩
  · intro u h
    cases hc : c.actor with
    | none =>
      unfold getOwnerUser at h
      rw [hc] at h
      cases h
    | some a =>
      unfold getOwnerUser at h
      rw [hc] at h
      have hmem := List.mem_of_find?_eq_some h
      have hp := List.find?_some h
      simp only [Bool.and_eq_true, Bool.not_eq_true', decide_eq_true_eq] at hp
      have hone : actorOwnerIds c = a.ownerIds := by
        unfold actorOwnerIds
        rw [hc]
      exact ⟨hmem, rfl, hp.1.1, hp.1.2, hone ▸ hp.2⟩
  · intro h
    cases hc : c.actor with
    | none =>
      unfold getOwnerUser
      rw [hc]
    | some a =>
      unfold getOwnerUser
      rw [hc]
      refine List.find?_eq_none.mpr ?_
      intro u hu hcontra
      simp only [Bool.and_eq_true, Bool.not_eq_true', decide_eq_true_eq] at hcontra
      obtain ⟨⟨hact, hgm⟩, hown⟩ := hcontra
      have hmemOwn : u.id ∈ actorOwnerIds c := by
        unfold actorOwnerIds
        rw [hc]
        exact hown
      rcases h u hu hmemOwn with hno | hyes
      · simp [hact] at hno
      · simp [hgm] at hyes
  · intro h
    simp [getRoll, h, localRoll]

/-- C10 witness: an actor owned only by the GM and by an inactive player has
no owner user, by the theorem. -/
theorem getOwnerUser_spec_witness :
    getOwnerUser [User.mk "gm" true true, User.mk "p1" false false]
      (Combatant.mk "a" "A" (some 10) (some (Actor.mk "character" (some 2) ["gm", "p1"]))) =
      none :=
  (getOwnerUser_spec [User.mk "gm" true true, User.mk "p1" false false]
      (fun _ => 0) (fun _ => none)
      (Combatant.mk "a" "A" (some 10) (some (Actor.mk "character" (some 2) ["gm", "p1"])))
      ⟨[], 0, 0, [], []⟩).2.1 (by decide)

theorem lookupRank_setRank_self (cid : String) (v : ℚ) (ranks : List (String × ℚ)) :
    lookupRank (setRank ranks cid v) cid = (lookupRank ranks cid).map (fun _ => v) := by
  induction ranks with
  | nil => rfl
  | cons a rest ih =>
    by_cases h : a.1 = cid
    · simp [setRank, lookupRank, h]
    · simp only [setRank, List.map_cons] at ih ⊢
      simp [lookupRank, h, ih]

theorem lookupRank_setRank_other (cid cid' : String) (v : ℚ) (h : cid' ≠ cid)
    (ranks : List (String × ℚ)) :
    lookupRank (setRank ranks cid v) cid' = lookupRank ranks cid' := by
  induction ranks with
  | nil => rfl
  | cons a rest ih =>
    by_cases ha : a.1 = cid
    · have hcc : ¬(cid = cid') := fun hh => h hh.symm
      have hac : ¬(a.1 = cid') := by
        rw [ha]
        exact hcc
      simp only [setRank, List.map_cons] at ih ⊢
      simp [lookupRank, ha, hcc, hac, ih]
    · simp only [setRank, List.map_cons] at ih ⊢
      by_cases ha' : a.1 = cid'
      · simp [lookupRank, ha, ha', h]
      · simp [lookupRank, ha, ha', ih]

theorem getRank_writeRank_self (w : World) (cid : String) (v : ℚ) (q : ℚ)
    (h : getRank w cid = some q) : getRank (writeRank w cid v) cid = some v := by
  unfold getRank at h ⊢
  unfold writeRank
  show lookupRank (setRank w.ranks cid v) cid = some v
  rw [lookupRank_setRank_self, h]
  rfl

theorem getRank_writeRank_other (w : World) (cid cid' : String) (v : ℚ) (h : cid' ≠ cid) :
    getRank (writeRank w cid v) cid' = getRank w cid' := by
  unfold getRank writeRank
  exact lookupRank_setRank_other cid cid' v h w.ranks

/-- C5: applying the rolloff winner over a TieGroup whose members all hold
the shared rank r writes the winner's rank to r + 0.01, which is strictly
greater than every tied member's original rank, leaves every other entity's
rank untouched, and appends exactly that one write to the external log. -/
theorem applyRolloffWinner_spec (w : World) (groupIds : List String) (r : ℚ)
    (winner : Combatant)
    (hmem : winner.id ∈ groupIds)
    (hall : ∀ cid ∈ groupIds, getRank w cid = some r) :
    getRank (applyRolloffWinner w winner) winner.id = some (r + 1 / 100) ∧
    (∀ cid ∈ groupIds, ∀ q : ℚ, getRank w cid = some q → q < r + 1 / 100) ∧
    (∀ cid : String, cid ≠ winner.id →
      getRank (applyRolloffWinner w winner) cid = getRank w cid) ∧
    (applyRolloffWinner w winner).writes = w.writes ++ [(winner.id, r + 1 / 100)] := by
  have hw : getRank w winner.id = some r := hall winner.id hmem
  have hval : (getRank w winner.id).getD 0 + 1 / 100 = r + 1 / 100 := by
    rw [hw]
    rfl
  refine ⟨?_, ?_, ?_, ?_⟩
  · unfold applyRolloffWinner
    rw [hval]
    exact getRank_writeRank_self w winner.id _ r hw
  · intro cid hcid q hq
    have : q = r := by
      rw [hall cid hcid] at hq
      exact (Option.some.inj hq).symm
    rw [this]
    norm_num
  · intro cid hcid
    unfold applyRolloffWinner
    exact getRank_writeRank_other w winner.id cid _ hcid
  · unfold applyRolloffWinner writeRank
    rw [hval]

/-- C5 witness: a two-member TieGroup at rank 12; the theorem applies and
the winner's live rank becomes 12.01. -/
theorem applyRolloffWinner_spec_witness :
    getRank (applyRolloffWinner ⟨[("a", 12), ("b", 12), ("c", 7)], 0, 0, [], []⟩
        (Combatant.mk "a" "A" (some 12) none)) "a" = some (12 + 1 / 100) :=
  (applyRolloffWinner_spec ⟨[("a", 12), ("b", 12), ("c", 7)], 0, 0, [], []⟩
      ["a", "b"] 12 (Combatant.mk "a" "A" (some 12) none)
      (by decide) (by decide)).1

theorem getRoll_combatant (users : List User) (ds : Nat → Nat) (remote : Nat → Option Nat)
    (c : Combatant) (w : World) : (getRoll users ds remote c w).1.combatant = c := by
  unfold getRoll
  cases getOwnerUser users c with
  | none => rfl
  | some u =>
    dsimp only [remoteQuery]
    cases remote w.kR with
    | some t => rfl
    | none => rfl

theorem rollGroup_map_combatant (users : List User) (ds : Nat → Nat) (remote : Nat → Option Nat)
    (cs : List Combatant) : ∀ w : World,
    ((rollGroup users ds remote cs w).1).map (fun r => r.combatant) = cs := by
  induction cs with
  | nil => intro w; rfl
  | cons c cs ih =>
    intro w
    simp only [rollGroup, List.map_cons]
    rw [getRoll_combatant, ih]

theorem getRoll_owner_fail (users : List User) (ds : Nat → Nat) (remote : Nat → Option Nat)
    (c : Combatant) (w : World) (hc : (getOwnerUser users c).isSome)
    (hr : remote w.kR = none) :
    getRoll users ds remote c w =
      (⟨c, ds w.kL⟩,
       { w with kL := w.kL + 1, kR := w.kR + 1, solicited := w.solicited ++ [c.id] }) := by
  obtain ⟨u, hu⟩ := Option.isSome_iff_exists.mp hc
  unfold getRoll
  rw [hu]
  dsimp only [remoteQuery]
  rw [hr]
  rfl

theorem rollGroup_pair_fail (users : List User) (ds : Nat → Nat) (remote : Nat → Option Nat)
    (a b : Combatant) (w : World)
    (ha : (getOwnerUser users a).isSome) (hb : (getOwnerUser users b).isSome)
    (hr : ∀ n, remote n = none) :
    rollGroup users ds remote [a, b] w =
      ([⟨a, ds w.kL⟩, ⟨b, ds (w.kL + 1)⟩],
       { w with kL := w.kL + 2, kR := w.kR + 2,
                solicited := w.solicited ++ [a.id, b.id] }) := by
  have h1 := getRoll_owner_fail users ds remote a w ha (hr w.kR)
  have h2 := getRoll_owner_fail users ds remote b
      { w with kL := w.kL + 1, kR := w.kR + 1, solicited := w.solicited ++ [a.id] } hb (hr _)
  simp only [rollGroup, h1, h2]
  simp [List.append_assoc]

theorem winnersOf_pair_left (a b : Combatant) (t1 t2 : Nat) (h : t2 < t1) :
    winnersOf [⟨a, t1⟩, ⟨b, t2⟩] = [⟨a, t1⟩] := by
  have hmax : maxTotal [⟨a, t1⟩, ⟨b, t2⟩] = t1 := by
    simp [maxTotal]
    omega
  have hne : ¬(t2 = t1) := by omega
  simp [winnersOf, hmax, hne]

theorem winnersOf_pair_right (a b : Combatant) (t1 t2 : Nat) (h : t1 < t2) :
    winnersOf [⟨a, t1⟩, ⟨b, t2⟩] = [⟨b, t2⟩] := by
  have hmax : maxTotal [⟨a, t1⟩, ⟨b, t2⟩] = t2 := by
    simp [maxTotal]
    omega
  have hne : ¬(t1 = t2) := by omega
  simp [winnersOf, hmax, hne]

/-- C3: totality of the 2-entity contest under full remote failure. One
result is collected per entrant in every environment; when both entrants
have owners and every remote query fails, each entrant's accepted result is
the local fallback draw and both solicitations were sent; the totals are
compared only by _resolveRolloff, after the whole result list is collected;
when the two fallback draws differ the contest returns the single entrant
holding the larger total as the definite winner; and a successful remote
reply is accepted as that entrant's result. -/
theorem pair_contest_totality (users : List User) (ds : Nat → Nat) (remote : Nat → Option Nat)
    (a b : Combatant) (w : World)
    (ha : (getOwnerUser users a).isSome)
    (hb : (getOwnerUser users b).isSome)
    (hremote : ∀ n, remote n = none) :
    (∀ cs w0, ((rollGroup users ds remote cs w0).1).map (fun r => r.combatant) = cs) ∧
    (rollGroup users ds remote [a, b] w).1 = [⟨a, ds w.kL⟩, ⟨b, ds (w.kL + 1)⟩] ∧
    (rollGroup users ds remote [a, b] w).2.solicited = w.solicited ++ [a.id, b.id] ∧
    (∀ fuel cs w0, conductPairRolloff users ds remote (fuel + 1) cs w0 =
        resolveRolloff users ds remote fuel (rollGroup users ds remote cs w0).1
          (rollGroup users ds remote cs w0).2) ∧
    (ds (w.kL + 1) < ds w.kL →
      (conductPairRolloff users ds remote 1 [a, b] w).1 = some a) ∧
    (ds w.kL < ds (w.kL + 1) →
      (conductPairRolloff users ds remote 1 [a, b] w).1 = some b) ∧
    (∀ (remote2 : Nat → Option Nat) (c : Combatant) (w0 : World) (t : Nat) (u : User),
      getOwnerUser users c = some u → remote2 w0.kR = some t →
      (getRoll users ds remote2 c w0).1 = ⟨c, t⟩) := by
  have hpair := rollGroup_pair_fail users ds remote a b w ha hb hremote
  refine ⟨fun cs w0 => rollGroup_map_combatant users ds remote cs w0,
          by rw [hpair], by rw [hpair], fun fuel cs w0 => rfl, ?_, ?_, ?_⟩
  · intro hlt
    have h4 : conductPairRolloff users ds remote 1 [a, b] w =
        resolveRolloff users ds remote 0 (rollGroup users ds remote [a, b] w).1
          (rollGroup users ds remote [a, b] w).2 := rfl
    rw [h4, hpair]
    simp [resolveRolloff, winnersOf_pair_left a b (ds w.kL) (ds (w.kL + 1)) hlt]
  · intro hlt
    have h4 : conductPairRolloff users ds remote 1 [a, b] w =
        resolveRolloff users ds remote 0 (rollGroup users ds remote [a, b] w).1
          (rollGroup users ds remote [a, b] w).2 := rfl
    rw [h4, hpair]
    simp [resolveRolloff, winnersOf_pair_right a b (ds w.kL) (ds (w.kL + 1)) hlt]
  · intro remote2 c w0 t u hu ht
    unfold getRoll
    rw [hu]
    dsimp only [remoteQuery]
    rw [ht]

/-- C3 witness: two player-owned combatants, every remote query failing,
fallback draws 3 and 4: the contest completes and declares the second
entrant the unique winner, by the theorem. -/
theorem pair_contest_totality_witness :
    (conductPairRolloff [User.mk "p1" true false, User.mk "p2" true false]
        (fun n => n + 3) (fun _ => none) 1
        [Combatant.mk "a" "A" (some 10) (some (Actor.mk "character" (some 1) ["p1"])),
         Combatant.mk "b" "B" (some 10) (some (Actor.mk "character" (some 2) ["p2"]))]
        ⟨[("a", 10), ("b", 10)], 0, 0, [], []⟩).1 =
      some (Combatant.mk "b" "B" (some 10) (some (Actor.mk "character" (some 2) ["p2"]))) :=
  (pair_contest_totality [User.mk "p1" true false, User.mk "p2" true false]
      (fun n => n + 3) (fun _ => none)
      (Combatant.mk "a" "A" (some 10) (some (Actor.mk "character" (some 1) ["p1"])))
      (Combatant.mk "b" "B" (some 10) (some (Actor.mk "character" (some 2) ["p2"])))
      ⟨[("a", 10), ("b", 10)], 0, 0, [], []⟩
      (by decide) (by decide) (fun n => rfl)).2.2.2.2.2.1 (by decide)

theorem getRoll_frame (users : List User) (ds : Nat → Nat) (remote : Nat → Option Nat)
    (c : Combatant) (w : World) :
    ((getRoll users ds remote c w).2).writes = w.writes ∧
    ((getRoll users ds remote c w).2).ranks = w.ranks := by
  unfold getRoll
  cases getOwnerUser users c with
  | none => exact ⟨rfl, rfl⟩
  | some u =>
    dsimp only [remoteQuery]
    cases remote w.kR with
    | some t => exact ⟨rfl, rfl⟩
    | none => exact ⟨rfl, rfl⟩

theorem rollGroup_frame (users : List User) (ds : Nat → Nat) (remote : Nat → Option Nat)
    (cs : List Combatant) : ∀ w : World,
    ((rollGroup users ds remote cs w).2).writes = w.writes ∧
    ((rollGroup users ds remote cs w).2).ranks = w.ranks := by
  induction cs with
  | nil => intro w; exact ⟨rfl, rfl⟩
  | cons c cs ih =>
    intro w
    have h1 := getRoll_frame users ds remote c w
    have h2 := ih (getRoll users ds remote c w).2
    constructor
    · show ((rollGroup users ds remote cs (getRoll users ds remote c w).2).2).writes = w.writes
      rw [h2.1, h1.1]
    · show ((rollGroup users ds remote cs (getRoll users ds remote c w).2).2).ranks = w.ranks
      rw [h2.2, h1.2]

theorem conductPairRolloff_writes (users : List User) (ds : Nat → Nat)
    (remote : Nat → Option Nat) : ∀ (fuel : Nat) (cs : List Combatant) (w : World),
    ((conductPairRolloff users ds remote fuel cs w).1 = none →
      ((conductPairRolloff users ds remote fuel cs w).2).writes = w.writes) ∧
    (∀ wn, (conductPairRolloff users ds remote fuel cs w).1 = some wn →
      ∃ q : ℚ, ((conductPairRolloff users ds remote fuel cs w).2).writes =
        w.writes ++ [(wn.id, q)]) := by
  intro fuel
  induction fuel with
  | zero =>
    intro cs w
    exact ⟨fun _ => rfl, fun wn h => by cases h⟩
  | succ fuel ih =>
    intro cs w
    have hframe := (rollGroup_frame users ds remote cs w).1
    by_cases h2 : 2 ≤ (winnersOf (rollGroup users ds remote cs w).1).length
    · have hstep : conductPairRolloff users ds remote (fuel + 1) cs w =
          conductPairRolloff users ds remote fuel
            ((winnersOf (rollGroup users ds remote cs w).1).map (fun r => r.combatant))
            (rollGroup users ds remote cs w).2 := by
        simp only [conductPairRolloff]
        rw [if_pos h2]
      rw [hstep]
      constructor
      · intro hn
        rw [(ih _ _).1 hn, hframe]
      · intro wn hs
        obtain ⟨q, hq⟩ := (ih _ _).2 wn hs
        exact ⟨q, by rw [hq, hframe]⟩
    · cases hws : winnersOf (rollGroup users ds remote cs w).1 with
      | nil =>
        have hstep : conductPairRolloff users ds remote (fuel + 1) cs w =
            (none, (rollGroup users ds remote cs w).2) := by
          simp only [conductPairRolloff]
          rw [if_neg h2, hws]
        rw [hstep]
        exact ⟨fun _ => hframe, fun wn h => by cases h⟩
      | cons r rest =>
        have hstep : conductPairRolloff users ds remote (fuel + 1) cs w =
            (some r.combatant,
             applyRolloffWinner (rollGroup users ds remote cs w).2 r.combatant) := by
          simp only [conductPairRolloff]
          rw [if_neg h2, hws]
        rw [hstep]
        refine ⟨fun h => Option.noConfusion h, fun wn h => ?_⟩
        have hwn : r.combatant = wn := Option.some.inj h
        refine ⟨(getRank (rollGroup users ds remote cs w).2 r.combatant.id).getD 0 + 1 / 100, ?_⟩
        rw [← hwn]
        show (applyRolloffWinner (rollGroup users ds remote cs w).2 r.combatant).writes = _
        unfold applyRolloffWinner writeRank
        rw [hframe]

/-! The bracket loop of _conductBracketRolloff in src/scripts/rolloff-manager.mjs.
The random shuffle of the tied combatants is externalised: the function
receives the already-shuffled order. One round pairs the current entrants
left to right; on a unique pair maximum the unique winner advances, on a
tie the source starts a full pair sub-rolloff over exactly the tied
entrants (which announces and rank-applies its own winner) and then pushes
winners[0] — the first of the tied results — into the next round whatever
the sub-contest decided. The while loop repeats until one entrant remains,
who then receives the final _applyRolloffWinner write. roundFuel bounds the
loop (the source loop halves the field each pass); fuel bounds the
sub-rolloff recursion. -/

/-- One pass of the while loop body: pair off the current round's entrants
and build the next round. -/
def processRound (users : List User) (ds : Nat → Nat) (remote : Nat → Option Nat)
    (fuel : Nat) : List Combatant → World → Option (List Combatant) × World
  | [], w => (some [], w)
  | [c], w => (some [c], w)
  | c1 :: c2 :: rest, w =>
    let p := rollGroup users ds remote [c1, c2] w
    match winnersOf p.1 with
    | [] => (none, p.2)
    | top :: more =>
      if more.length = 0 then
        match processRound users ds remote fuel rest p.2 with
        | (none, w2) => (none, w2)
        | (some next, w2) => (some (top.combatant :: next), w2)
      else
        let sub := conductPairRolloff users ds remote fuel
            ((top :: more).map (fun r => r.combatant)) p.2
        match sub.1 with
        | none => (none, sub.2)
        | some _ =>
          match processRound users ds remote fuel rest sub.2 with
          | (none, w2) => (none, w2)
          | (some next, w2) => (some (top.combatant :: next), w2)

/-- The while loop over rounds. -/
def bracketLoop (users : List User) (ds : Nat → Nat) (remote : Nat → Option Nat)
    (fuel : Nat) : Nat → List Combatant → World → Option Combatant × World
  | 0, _, w => (none, w)
  | roundFuel + 1, current, w =>
    if current.length ≤ 1 then (current.head?, w)
    else
      match processRound users ds remote fuel current w with
      | (none, w1) => (none, w1)
      | (some next, w1) => bracketLoop users ds remote fuel roundFuel next w1

/-- _conductBracketRolloff (scripts variant): run the rounds, then apply the
surviving entrant as the rolloff winner. -/
def conductBracketRolloff (users : List User) (ds : Nat → Nat) (remote : Nat → Option Nat)
    (fuel roundFuel : Nat) (shuffled : List Combatant) (w : World) :
    Option Combatant × World :=
  match bracketLoop users ds remote fuel roundFuel shuffled w with
  | (some winner, w1) => (some winner, applyRolloffWinner w1 winner)
  | (none, w1) => (none, w1)

/-- C1: concrete run refuting the claim on the bracket path of
src/scripts/rolloff-manager.mjs (lines 304-319). Three unowned combatants
A, B, C tied at rank 12; the round-0 pair A-B rolls 5, 5 — a tie — so the
engine starts the pair sub-contest over exactly the tied pair, which rolls
2, 7 and therefore declares B (the single external rank write the
sub-contest makes names B). Yet the bracket pushes winners[0] = A into the
next round and, after A beats C 9 to 1, declares A the overall winner: the
declared winner is an arbitrary pick among the round-0 equal maxima, not
the sub-contest winner B. -/
theorem bracket_tie_advances_arbitrary :
    (conductBracketRolloff [] (fun n => List.getD [5, 5, 2, 7, 9, 1] n 0) (fun _ => none) 3 3
        [Combatant.mk "A" "Alice" (some 12) none, Combatant.mk "B" "Bob" (some 12) none,
         Combatant.mk "C" "Cara" (some 12) none]
        ⟨[("A", 12), ("B", 12), ("C", 12)], 0, 0, [], []⟩).1 =
      some (Combatant.mk "A" "Alice" (some 12) none) ∧
    (conductBracketRolloff [] (fun n => List.getD [5, 5, 2, 7, 9, 1] n 0) (fun _ => none) 3 3
        [Combatant.mk "A" "Alice" (some 12) none, Combatant.mk "B" "Bob" (some 12) none,
         Combatant.mk "C" "Cara" (some 12) none]
        ⟨[("A", 12), ("B", 12), ("C", 12)], 0, 0, [], []⟩).2.writes =
      [("B", 12 + 1 / 100), ("A", 12 + 1 / 100)] ∧
    (processRound [] (fun n => List.getD [5, 5, 2, 7, 9, 1] n 0) (fun _ => none) 3
        [Combatant.mk "A" "Alice" (some 12) none, Combatant.mk "B" "Bob" (some 12) none,
         Combatant.mk "C" "Cara" (some 12) none]
        ⟨[("A", 12), ("B", 12), ("C", 12)], 0, 0, [], []⟩).1 =
      some [Combatant.mk "A" "Alice" (some 12) none, Combatant.mk "C" "Cara" (some 12) none] := by
  refine ⟨?_, ?_, ?_⟩ <;> rfl

/-! The draft manager of src/unnamed/part_007: a seeded two-round bracket
(_buildBracket, _conductBracketRolloff, _conductBracketMatch). Namespace P7
keeps its definitions apart from the scripts variant above. -/

namespace P7

/-- The combatant reference stored in bracket slots ({id, name, img} in the
source; the image is presentation-only and omitted). -/
structure SlotRef where
  id : String
  name : String
deriving DecidableEq

/-- One entry of the bracket's seeded combatant list ({id, name, img, dex}). -/
structure SeedEntry where
  id : String
  name : String
  dex : Int
deriving DecidableEq

/-- One bracket match: deterministic id, the first slot, the second slot
(unfilled for the round-1 match until round 0 resolves), and the winner and
loser set on resolution. -/
structure BMatch where
  matchId : String
  combatant1 : SlotRef
  combatant2 : Option SlotRef
  winner : Option SlotRef
  loser : Option SlotRef
deriving DecidableEq

/-- One bracket round (the source field matches is a Lean keyword, hence
matchList here). -/
structure Round where
  roundNumber : Nat
  matchList : List BMatch
deriving DecidableEq

/-- The bracket structure. -/
structure Bracket where
  rounds : List Round
  combatants : List SeedEntry
deriving DecidableEq

/-- _getDexterity: actor.system?.abilities?.dex?.value with 0 for a missing
actor or missing value (the source's falsy-or `|| 0` maps 0 to 0, so getD 0
is exact). -/
def getDexterity (c : Combatant) : Int :=
  match c.actor with
  | none => 0
  | some a => a.dexValue.getD 0

/-- The comparator of _buildBracket's sort: ascending dexterity. -/
def dexLe (a b : Combatant) : Prop := getDexterity a ≤ getDexterity b

instance : DecidableRel dexLe := fun x y => Int.decLe (getDexterity x) (getDexterity y)

instance : IsTotal Combatant dexLe := ⟨fun x y => Int.le_total (getDexterity x) (getDexterity y)⟩

instance : IsTrans Combatant dexLe := ⟨fun _ _ _ h1 h2 => le_trans h1 h2⟩

/-- The sort of _buildBracket. Array.prototype.sort is stable (ES2019), so
the sorted order is the unique ascending-by-dex order that keeps equal-dex
entrants in input order; insertion sort with a non-strict comparator
computes exactly that. -/
def sortByDex (cs : List Combatant) : List Combatant :=
  List.insertionSort dexLe cs

/-- The slot projection of a combatant. -/
def ref (c : Combatant) : SlotRef := ⟨c.id, c.name⟩

/-- _buildBracket: sort ascending by dexterity; round 0 holds one match
between the two lowest seeds, round 1 one match between the third seed and
an unfilled second slot. Fewer than 3 entrants would crash the source on
sorted[2] (modelled as none). -/
def buildBracket (combatants : List Combatant) (baseRolloffId : String) : Option Bracket :=
  match sortByDex combatants with
  | s0 :: s1 :: s2 :: _ =>
    some
      { rounds :=
          [⟨0, [⟨baseRolloffId ++ "-r0-m0", ref s0, some (ref s1), none, none⟩]⟩,
           ⟨1, [⟨baseRolloffId ++ "-r1-m0", ref s2, none, none, none⟩]⟩],
        combatants := (sortByDex combatants).map (fun c => ⟨c.id, c.name, getDexterity c⟩) }
  | _ => none

/-- Math.max over two rank values (via the executable rational comparison;
for a = b both branches coincide). -/
def jsMax (a b : ℚ) : ℚ := if Rat.blt a b then b else a

/-- _conductBracketMatch: roll both slots, reroll the whole match while the
pair ties (fuel-bounded), then write the match winner's rank to
max(slot ranks) + 0.01 and record winner and loser on the match. The
rollUpdate broadcasts are presentation-only. -/
def conductBracketMatch (users : List User) (ds : Nat → Nat) (remote : Nat → Option Nat) :
    Nat → Combatant → Combatant → BMatch → World → Option BMatch × World
  | 0, _, _, _, w => (none, w)
  | fuel + 1, c1, c2, m, w =>
    let p := rollGroup users ds remote [c1, c2] w
    let ws := winnersOf p.1
    if 2 ≤ ws.length then
      conductBracketMatch users ds remote fuel c1 c2 m p.2
    else
      match ws with
      | [] => (none, p.2)
      | top :: _ =>
        match p.1.find? (fun r => decide (¬(r.combatant.id = top.combatant.id))) with
        | none => (none, p.2)
        | some loserR =>
          let maxPairInitiative : ℚ :=
            jsMax ((getRank p.2 c1.id).getD 0) ((getRank p.2 c2.id).getD 0)
          let w2 := writeRank p.2 top.combatant.id (maxPairInitiative + 1 / 100)
          (some { m with winner := some (ref top.combatant),
                         loser := some (ref loserR.combatant) }, w2)

/-- _conductBracketRolloff (part_007): build the bracket, run the round-0
match, feed its winner into the round-1 match's open slot, run the round-1
match and return the final bracket and winner reference. The find? calls
mirror the source's lookups of live combatants by stored slot id; any
failed lookup or unresolved match is none. The final showWinner broadcasts
are presentation-only; note this variant performs no final
_applyRolloffWinner — rank writes happen per match only. -/
def conductBracketRolloff7 (users : List User) (ds : Nat → Nat) (remote : Nat → Option Nat)
    (fuel : Nat) (tiedCombatants : List Combatant) (rolloffId : String) (w : World) :
    Option (Bracket × SlotRef) × World :=
  match buildBracket tiedCombatants rolloffId with
  | none => (none, w)
  | some bracket =>
    match bracket.rounds with
    | round0 :: round1 :: _ =>
      match round0.matchList, round1.matchList with
      | m0 :: _, m1 :: _ =>
        match tiedCombatants.find? (fun c => decide (c.id = m0.combatant1.id)),
            m0.combatant2.bind (fun s => tiedCombatants.find? (fun c => decide (c.id = s.id))) with
        | some c1, some c2 =>
          match conductBracketMatch users ds remote fuel c1 c2 m0 w with
          | (some m0r, w1) =>
            let m1f := { m1 with combatant2 := m0r.winner }
            match tiedCombatants.find? (fun c => decide (c.id = m1f.combatant1.id)),
                m0r.winner.bind (fun s => tiedCombatants.find? (fun c => decide (c.id = s.id))) with
            | some c3, some winnerFromR0 =>
              match conductBracketMatch users ds remote fuel c3 winnerFromR0 m1f w1 with
              | (some m1r, w2) =>
                match m1r.winner with
                | some fw =>
                  (some ({ bracket with rounds := [⟨0, [m0r]⟩, ⟨1, [m1r]⟩] }, fw), w2)
                | none => (none, w2)
              | (none, w2) => (none, w2)
            | _, _ => (none, w1)
          | (none, w1) => (none, w1)
        | _, _ => (none, w)
      | _, _ => (none, w)
    | _ => (none, w)

end P7

theorem conductBracketMatch_spec (users : List User) (ds : Nat → Nat)
    (remote : Nat → Option Nat) : ∀ (fuel : Nat) (c1 c2 : Combatant) (m : P7.BMatch)
    (w : World) (m' : P7.BMatch) (w' : World),
    P7.conductBracketMatch users ds remote fuel c1 c2 m w = (some m', w') →
    m'.matchId = m.matchId ∧ m'.combatant1 = m.combatant1 ∧ m'.combatant2 = m.combatant2 ∧
    m'.winner.isSome ∧ ∃ e : String × ℚ, w'.writes = w.writes ++ [e] := by
  intro fuel
  induction fuel with
  | zero =>
    intro c1 c2 m w m' w' h
    simp [P7.conductBracketMatch] at h
  | succ fuel ih =>
    intro c1 c2 m w m' w' h
    by_cases h2 : 2 ≤ (winnersOf (rollGroup users ds remote [c1, c2] w).1).length
    · have hstep : P7.conductBracketMatch users ds remote (fuel + 1) c1 c2 m w =
          P7.conductBracketMatch users ds remote fuel c1 c2 m
            (rollGroup users ds remote [c1, c2] w).2 := by
        simp only [P7.conductBracketMatch]
        rw [if_pos h2]
      rw [hstep] at h
      obtain ⟨ha, hb, hc, hd, e, he⟩ := ih c1 c2 m _ m' w' h
      exact ⟨ha, hb, hc, hd, e,
        by rw [he, (rollGroup_frame users ds remote [c1, c2] w).1]⟩
    · cases hws : winnersOf (rollGroup users ds remote [c1, c2] w).1 with
      | nil =>
        have hstep : P7.conductBracketMatch users ds remote (fuel + 1) c1 c2 m w =
            (none, (rollGroup users ds remote [c1, c2] w).2) := by
          simp only [P7.conductBracketMatch]
          rw [if_neg h2, hws]
        rw [hstep] at h
        simp at h
      | cons top rest =>
        cases hf : (rollGroup users ds remote [c1, c2] w).1.find?
            (fun r => decide (¬(r.combatant.id = top.combatant.id))) with
        | none =>
          have hstep : P7.conductBracketMatch users ds remote (fuel + 1) c1 c2 m w =
              (none, (rollGroup users ds remote [c1, c2] w).2) := by
            simp only [P7.conductBracketMatch]
            rw [if_neg h2, hws]
            dsimp only
            rw [hf]
          rw [hstep] at h
          simp at h
        | some loserR =>
          have hstep : P7.conductBracketMatch users ds remote (fuel + 1) c1 c2 m w =
              (some { m with winner := some (P7.ref top.combatant),
                             loser := some (P7.ref loserR.combatant) },
               writeRank (rollGroup users ds remote [c1, c2] w).2 top.combatant.id
                 (P7.jsMax ((getRank (rollGroup users ds remote [c1, c2] w).2 c1.id).getD 0)
                      ((getRank (rollGroup users ds remote [c1, c2] w).2 c2.id).getD 0)
                   + 1 / 100)) := by
            simp only [P7.conductBracketMatch]
            rw [if_neg h2, hws]
            dsimp only
            rw [hf]
          rw [hstep] at h
          simp only [Prod.mk.injEq] at h
          obtain ⟨hm, hw⟩ := h
          have hm' := Option.some.inj hm
          subst hw
          rw [← hm']
          refine ⟨rfl, rfl, rfl, rfl,
            ⟨(top.combatant.id,
              P7.jsMax ((getRank (rollGroup users ds remote [c1, c2] w).2 c1.id).getD 0)
                  ((getRank (rollGroup users ds remote [c1, c2] w).2 c2.id).getD 0)
                + 1 / 100), ?_⟩⟩
          show ((rollGroup users ds remote [c1, c2] w).2).writes ++ _ = w.writes ++ _
          rw [(rollGroup_frame users ds remote [c1, c2] w).1]

theorem conductBracketRolloff7_some (users : List User) (ds : Nat → Nat)
    (remote : Nat → Option Nat) (fuel : Nat) (tiedCombatants : List Combatant)
    (rolloffId : String) (w : World) (res : P7.Bracket × P7.SlotRef) (w' : World)
    (h : P7.conductBracketRolloff7 users ds remote fuel tiedCombatants rolloffId w =
      (some res, w')) :
    (∃ m0r m1r : P7.BMatch,
      (res.1.rounds.map (fun rd => rd.matchList)) = [[m0r], [m1r]] ∧
      m1r.combatant2 = m0r.winner ∧ m1r.winner = some res.2) ∧
    (∃ e1 e2 : String × ℚ, w'.writes = w.writes ++ [e1, e2]) := by
  unfold P7.conductBracketRolloff7 at h
  split at h
  · simp at h
  · rename_i bracket hbb
    split at h
    · rename_i round0 round1 rtl hrounds
      split at h
      · rename_i m0 m0tl m1 m1tl hm0l hm1l
        split at h
        · rename_i c1 c2 hf1 hf2
          split at h
          · rename_i m0r w1 hm0
            dsimp only at h
            split at h
            · rename_i c3 winnerFromR0 hf3 hf4
              split at h
              · rename_i m1r w2 hm1
                split at h
                · rename_i fw hfw
                  simp only [Prod.mk.injEq] at h
                  obtain ⟨hres, hw⟩ := h
                  have hres' := Option.some.inj hres
                  subst hw
                  obtain ⟨_, _, hc2eq, _, e2, he2⟩ :=
                    conductBracketMatch_spec users ds remote fuel c3 winnerFromR0 _ w1 m1r w2 hm1
                  obtain ⟨_, _, _, _, e1, he1⟩ :=
                    conductBracketMatch_spec users ds remote fuel c1 c2 m0 w m0r w1 hm0
                  constructor
                  · refine ⟨m0r, m1r, ?_, ?_, ?_⟩
                    · rw [← hres']
                      rfl
                    · exact hc2eq
                    · rw [← hres']
                      exact hfw
                  · refine ⟨e1, e2, ?_⟩
                    rw [he2, he1, List.append_assoc]
                    rfl
                · simp at h
              · simp at h
            · simp at h
          · simp at h
        · simp at h
      · simp at h
    · simp at h

/-- C2 counterexample: the part_007 bracket writes the external rank once
per match, not once per TieGroup. Three unowned combatants tied at rank 12
(equal dex, so seeding keeps input order A, B, C); round 0 rolls 3, 8 so B
wins and B's rank is written to 12.01 before the overall winner exists;
round 1 rolls 10, 4 so C wins the bracket and C's rank is written to 12.02.
Two rank writes happen for the one TieGroup, and the first names B, not the
final winner C. -/
theorem bracket_rank_written_per_match :
    ((P7.conductBracketRolloff7 [] (fun n => List.getD [3, 8, 10, 4] n 0) (fun _ => none) 3
        [Combatant.mk "A" "Alice" (some 12) none, Combatant.mk "B" "Bob" (some 12) none,
         Combatant.mk "C" "Cara" (some 12) none] "rid"
        ⟨[("A", 12), ("B", 12), ("C", 12)], 0, 0, [], []⟩).2.writes.map
          (fun e => e.1)) = ["B", "C"] ∧
    ((P7.conductBracketRolloff7 [] (fun n => List.getD [3, 8, 10, 4] n 0) (fun _ => none) 3
        [Combatant.mk "A" "Alice" (some 12) none, Combatant.mk "B" "Bob" (some 12) none,
         Combatant.mk "C" "Cara" (some 12) none] "rid"
        ⟨[("A", 12), ("B", 12), ("C", 12)], 0, 0, [], []⟩).1.map
          (fun r => r.2.id)) = some "C" ∧
    (P7.conductBracketRolloff7 [] (fun n => List.getD [3, 8, 10, 4] n 0) (fun _ => none) 3
        [Combatant.mk "A" "Alice" (some 12) none, Combatant.mk "B" "Bob" (some 12) none,
         Combatant.mk "C" "Cara" (some 12) none] "rid"
        ⟨[("A", 12), ("B", 12), ("C", 12)], 0, 0, [], []⟩).2.writes.length ≠ 1 := by
  refine ⟨rfl, rfl, by decide⟩

/-- C2 as amended: the rank field is written exactly once per completed
pairwise contest resolution — by the winner-application step, naming the
declared winner, after no ties remain (and not at all when the contest does
not complete) — while for bracket TieGroups each completed bracket match
performs exactly one rank write of its own, so a completed 3-entrant
bracket writes the rank twice per TieGroup, not once. -/
theorem rank_write_discipline (users : List User) (ds : Nat → Nat)
    (remote : Nat → Option Nat) :
    (∀ fuel cs w w', conductPairRolloff users ds remote fuel cs w = (none, w') →
      w'.writes = w.writes) ∧
    (∀ fuel cs w wn w', conductPairRolloff users ds remote fuel cs w = (some wn, w') →
      ∃ q : ℚ, w'.writes = w.writes ++ [(wn.id, q)]) ∧
    (∀ fuel c1 c2 m w m' w',
      P7.conductBracketMatch users ds remote fuel c1 c2 m w = (some m', w') →
      ∃ e : String × ℚ, w'.writes = w.writes ++ [e]) ∧
    (∀ fuel cs rid w res w',
      P7.conductBracketRolloff7 users ds remote fuel cs rid w = (some res, w') →
      ∃ e1 e2 : String × ℚ, w'.writes = w.writes ++ [e1, e2]) := by
  refine ⟨?_, ?_, ?_, ?_⟩
  · intro fuel cs w w' h
    have := (conductPairRolloff_writes users ds remote fuel cs w).1
    rw [h] at this
    exact this rfl
  · intro fuel cs w wn w' h
    have := (conductPairRolloff_writes users ds remote fuel cs w).2 wn
    rw [h] at this
    exact this rfl
  · intro fuel c1 c2 m w m' w' h
    exact (conductBracketMatch_spec users ds remote fuel c1 c2 m w m' w' h).2.2.2.2
  · intro fuel cs rid w res w' h
    exact (conductBracketRolloff7_some users ds remote fuel cs rid w res w' h).2

/-- C2 amended witness: a completed 2-entity contest (unowned entrants,
draws 6 and 2) performs exactly the one winner write, by the theorem. -/
theorem rank_write_discipline_witness :
    ∃ q : ℚ,
      ((conductPairRolloff [] (fun n => List.getD [6, 2] n 0) (fun _ => none) 1
          [Combatant.mk "a" "A" (some 9) none, Combatant.mk "b" "B" (some 9) none]
          ⟨[("a", 9), ("b", 9)], 0, 0, [], []⟩).2).writes = [] ++ [("a", q)] :=
  (rank_write_discipline [] (fun n => List.getD [6, 2] n 0) (fun _ => none)).2.1 1
    [Combatant.mk "a" "A" (some 9) none, Combatant.mk "b" "B" (some 9) none]
    ⟨[("a", 9), ("b", 9)], 0, 0, [], []⟩
    (Combatant.mk "a" "A" (some 9) none) _ rfl

theorem filter_dex_orderedInsert (v : Int) (c : Combatant) (m : List Combatant) :
    (List.orderedInsert P7.dexLe c m).filter (fun x => decide (P7.getDexterity x = v)) =
      if P7.getDexterity c = v then
        c :: m.filter (fun x => decide (P7.getDexterity x = v))
      else m.filter (fun x => decide (P7.getDexterity x = v)) := by
  induction m with
  | nil =>
    by_cases hc : P7.getDexterity c = v <;> simp [List.orderedInsert, hc]
  | cons b bs ih =>
    by_cases hr : P7.dexLe c b
    · rw [List.orderedInsert_of_le P7.dexLe _ hr]
      by_cases hc : P7.getDexterity c = v <;> simp [List.filter_cons, hc]
    · have hstep : List.orderedInsert P7.dexLe c (b :: bs) =
          b :: List.orderedInsert P7.dexLe c bs := by
        simp [List.orderedInsert, hr]
      rw [hstep]
      have hlt : P7.getDexterity b < P7.getDexterity c := not_le.mp hr
      by_cases hc : P7.getDexterity c = v
      · have hbv : ¬(P7.getDexterity b = v) := by
          rw [← hc]
          exact ne_of_lt hlt
        simp [List.filter_cons, hbv, ih, hc]
      · by_cases hb : P7.getDexterity b = v <;> simp [List.filter_cons, hb, ih, hc]

theorem filter_dex_sortByDex (cs : List Combatant) (v : Int) :
    (P7.sortByDex cs).filter (fun x => decide (P7.getDexterity x = v)) =
      cs.filter (fun x => decide (P7.getDexterity x = v)) := by
  unfold P7.sortByDex
  induction cs with
  | nil => rfl
  | cons c cst ih =>
    show (List.orderedInsert P7.dexLe c (List.insertionSort P7.dexLe cst)).filter _ = _
    rw [filter_dex_orderedInsert]
    by_cases hc : P7.getDexterity c = v <;> simp [List.filter_cons, hc, ih]

/-- C4: bracket construction for 3 entrants. The seeding sort is the unique
stable ascending-by-dexterity order (a permutation of the input, sorted,
with every dexterity class kept in input order); round 0 holds exactly one
match between the two lowest seeds with both slots filled and no winner
yet; round 1 holds exactly one match between the third seed and an
unfilled second slot, with deterministic match ids derived from the base
id; and whenever the bracket rolloff completes, the stored round-1 match's
second slot was populated with exactly the stored round-0 match's winner.
Determinism in the input order and seeding attribute is inherent: every
definition here is a pure function of them. -/
theorem buildBracket_spec (cs : List Combatant) (rid : String) (h3 : cs.length = 3) :
    ∃ s0 s1 s2 : Combatant,
      P7.sortByDex cs = [s0, s1, s2] ∧
      List.Perm cs [s0, s1, s2] ∧
      P7.dexLe s0 s1 ∧ P7.dexLe s1 s2 ∧
      (∀ v : Int, (P7.sortByDex cs).filter (fun x => decide (P7.getDexterity x = v)) =
          cs.filter (fun x => decide (P7.getDexterity x = v))) ∧
      P7.buildBracket cs rid = some
        { rounds :=
            [⟨0, [⟨rid ++ "-r0-m0", P7.ref s0, some (P7.ref s1), none, none⟩]⟩,
             ⟨1, [⟨rid ++ "-r1-m0", P7.ref s2, none, none, none⟩]⟩],
          combatants :=
            [⟨s0.id, s0.name, P7.getDexterity s0⟩, ⟨s1.id, s1.name, P7.getDexterity s1⟩,
             ⟨s2.id, s2.name, P7.getDexterity s2⟩] } ∧
      (∀ users ds remote fuel w res w',
        P7.conductBracketRolloff7 users ds remote fuel cs rid w = (some res, w') →
        ∃ m0r m1r : P7.BMatch,
          res.1.rounds.map (fun rd => rd.matchList) = [[m0r], [m1r]] ∧
          m1r.combatant2 = m0r.winner) := by
  have hlen : (P7.sortByDex cs).length = 3 := by
    unfold P7.sortByDex
    rw [(List.perm_insertionSort P7.dexLe cs).length_eq]
    exact h3
  obtain ⟨s0, s1, s2, hs⟩ := List.length_eq_three.mp hlen
  have hsort : List.Sorted P7.dexLe [s0, s1, s2] := by
    rw [← hs]
    exact List.sorted_insertionSort P7.dexLe cs
  have hperm : List.Perm cs [s0, s1, s2] := by
    rw [← hs]
    exact (List.perm_insertionSort P7.dexLe cs).symm
  refine ⟨s0, s1, s2, hs, hperm, ?_, ?_, fun v => filter_dex_sortByDex cs v, ?_, ?_⟩
  · exact (List.sorted_cons.mp hsort).1 s1 (by simp)
  · exact (List.sorted_cons.mp (List.sorted_cons.mp hsort).2).1 s2 (by simp)
  · unfold P7.buildBracket
    rw [hs]
    rfl
  · intro users ds remote fuel w res w' h
    obtain ⟨⟨m0r, m1r, hshape, hc2, _⟩, _⟩ :=
      conductBracketRolloff7_some users ds remote fuel cs rid w res w' h
    exact ⟨m0r, m1r, hshape, hc2⟩

/-- C4 witness: three combatants with dexterity 3, 1, 2; the length
hypothesis holds and the theorem applies, so the bracket builds. -/
theorem buildBracket_spec_witness :
    (P7.buildBracket
        [Combatant.mk "x" "X" (some 12) (some (Actor.mk "character" (some 3) [])),
         Combatant.mk "y" "Y" (some 12) (some (Actor.mk "character" (some 1) [])),
         Combatant.mk "z" "Z" (some 12) (some (Actor.mk "character" (some 2) []))]
        "rid").isSome = true := by
  obtain ⟨s0, s1, s2, _, _, _, _, _, hbb, _⟩ :=
    buildBracket_spec
      [Combatant.mk "x" "X" (some 12) (some (Actor.mk "character" (some 3) [])),
       Combatant.mk "y" "Y" (some 12) (some (Actor.mk "character" (some 1) [])),
       Combatant.mk "z" "Z" (some 12) (some (Actor.mk "character" (some 2) []))]
      "rid" (by decide)
  rw [hbb]
  rfl

/-- Outcome of the body of one rolloff resolution (_conductPairRolloff or
_conductBracketRolloff): normal completion or a thrown internal error. -/
inductive RolloffOutcome where
  | ok
  | error (msg : String)
deriving DecidableEq

/-- The observable lifecycle of one _startRolloffForGroup call: the registry
while the resolution body runs, the registry after the call returns, and
the error, if any, propagated to the caller. -/
structure RolloffLifecycle where
  registryDuring : List String
  registryAfter : List String
  propagatedError : Option String
deriving DecidableEq

/-- _startRolloffForGroup from rolloff-manager.mjs: the dedup guard on
activeRolloffs, the set before the try block, the catch that logs and
swallows any internal error, and the finally that always deletes the
entry. -/
def startRolloffForGroup (activeRolloffs : List String) (rolloffId : String)
    (body : RolloffOutcome) : RolloffLifecycle :=
  if rolloffId ∈ activeRolloffs then ⟨activeRolloffs, activeRolloffs, none⟩
  else
    let during := rolloffId :: activeRolloffs
    let after := during.erase rolloffId
    match body with
    | .ok => ⟨during, after, none⟩
    | .error _ => ⟨during, after, none⟩

/-- C9: for a fresh rolloff id, the registry holds the entry while the
resolution runs and, whether the body completes normally or throws an
internal error, the entry is removed afterwards (the registry returns to
exactly its previous state) and no error is propagated to the caller. -/
theorem startRolloffForGroup_spec (active : List String) (rolloffId : String)
    (h : rolloffId ∉ active) (body : RolloffOutcome) :
    rolloffId ∈ (startRolloffForGroup active rolloffId body).registryDuring ∧
    (startRolloffForGroup active rolloffId body).registryAfter = active ∧
    rolloffId ∉ (startRolloffForGroup active rolloffId body).registryAfter ∧
    (startRolloffForGroup active rolloffId body).propagatedError = none := by
  have herase : (rolloffId :: active).erase rolloffId = active :=
    List.erase_cons_head rolloffId active
  unfold startRolloffForGroup
  rw [if_neg h]
  cases body with
  | ok =>
    refine ⟨List.mem_cons_self _ _, herase, ?_, rfl⟩
    intro hmem
    exact h (herase ▸ hmem)
  | error msg =>
    refine ⟨List.mem_cons_self _ _, herase, ?_, rfl⟩
    intro hmem
    exact h (herase ▸ hmem)

/-- C9 witness: a failing resolution body leaves the registry as it was and
propagates nothing, by the theorem. -/
theorem startRolloffForGroup_spec_witness :
    (startRolloffForGroup ["other"] "r1" (RolloffOutcome.error "boom")).registryAfter =
      ["other"] ∧
    (startRolloffForGroup ["other"] "r1" (RolloffOutcome.error "boom")).propagatedError =
      none :=
  ⟨(startRolloffForGroup_spec ["other"] "r1" (by decide) (RolloffOutcome.error "boom")).2.1,
   (startRolloffForGroup_spec ["other"] "r1" (by decide) (RolloffOutcome.error "boom")).2.2.2⟩

end Rollies
